import Mathlib

set_option linter.unusedVariables false

/- Verification development for the MSV filter core: the residue alphabet
   (src/aa_alphabet.cpp), the profile (include/profile.hpp), the DP matrix
   (include/dp_matrix.hpp) and the scoring engine compute_msv
   (tests/stub_msv.cpp), shallowly embedded and checked against the
   specification's stated properties. -/

set_option maxHeartbeats 1000000

namespace MSV

/-- Scores model the IEEE floats reachable by this program: finite values
as rationals, together with a bottom element modelling negative infinity
(the value written as minus eslINFINITY in the sources). Addition absorbs
bottom exactly as IEEE addition absorbs minus infinity against finite
operands, and the order is the usual one with bottom least. -/
abbrev Score := WithBot ℚ

/-- Constant p7G_NSCELLS from hmmer_types.hpp: main states per DP cell. -/
def p7G_NSCELLS : ℕ := 3

/-- Constant p7G_M from hmmer_types.hpp: index of the match state. -/
def p7G_M : ℕ := 0

/-- Constant p7G_I from hmmer_types.hpp: index of the insert state. -/
def p7G_I : ℕ := 1

/-- Constant p7G_D from hmmer_types.hpp: index of the delete state. -/
def p7G_D : ℕ := 2

/-- Constant p7G_NXCELLS from hmmer_types.hpp: special states per row. -/
def p7G_NXCELLS : ℕ := 5

/-- Constant p7P_NR from hmmer_types.hpp: emission kinds per node. -/
def p7P_NR : ℕ := 2

/-- Constant p7P_MSC from hmmer_types.hpp: match-emission index. -/
def p7P_MSC : ℕ := 0

/-- Constant p7P_ISC from hmmer_types.hpp: insert-emission index. -/
def p7P_ISC : ℕ := 1

/-- Constant p7P_NTRANS from hmmer_types.hpp: transitions per node. -/
def p7P_NTRANS : ℕ := 7

/-- Constant digitalResidueSentinel from hmmer_types.hpp. -/
def digitalResidueSentinel : ℕ := 255

/-- Constant digitalResidueIllegal from hmmer_types.hpp. -/
def digitalResidueIllegal : ℕ := 254

/-- Ascending counted loop: loopUp f a lo n applies f at the indices
lo, lo+1, ..., lo+n-1 in increasing order, starting from accumulator a.
This is the shape of every for loop in the embedded sources. -/
def loopUp {α : Type*} (f : α → ℕ → α) (a : α) (lo : ℕ) : ℕ → α
  | 0 => a
  | n + 1 => f (loopUp f a lo n) (lo + n)

/-- DPMatrix from include/dp_matrix.hpp. The flattened main plane dp and
the special-state array xmx are modelled as total maps from indices to
scores; the constructor fills both with negative infinity, and the only
indices the program ever touches are the in-range ones. -/
structure DPMatrix where
  model_length : ℤ
  sequence_length : ℤ
  allocR : ℤ
  validR : ℤ
  allocW : ℤ
  dp : ℕ → ℕ → Score
  xmx : ℕ → Score

/-- Constructor DPMatrix::DPMatrix from include/dp_matrix.hpp lines 47-60:
records the dimensions and fills every dp cell and every xmx cell with
minus eslINFINITY. -/
def DPMatrix.construct (max_model_length max_sequence_length : ℤ) : DPMatrix where
  model_length := max_model_length
  sequence_length := max_sequence_length
  allocR := max_sequence_length + 1
  validR := max_sequence_length + 1
  allocW := max_model_length + 1
  dp := fun _ _ => ⊥
  xmx := fun _ => ⊥

/-- Accessor match(i, k) from dp_matrix.hpp: dp[i][k * p7G_NSCELLS + p7G_M]. -/
def DPMatrix.match_cell (m : DPMatrix) (i k : ℕ) : Score :=
  m.dp i (k * p7G_NSCELLS + p7G_M)

/-- Write through the reference returned by match(i, k) in dp_matrix.hpp:
updates the single flattened dp cell k * p7G_NSCELLS + p7G_M of row i. -/
def DPMatrix.write_match (m : DPMatrix) (i k : ℕ) (v : Score) : DPMatrix :=
  { m with
    dp := fun i2 c2 =>
      if i2 = i ∧ c2 = k * p7G_NSCELLS + p7G_M then v else m.dp i2 c2 }

/-- Accessor insert(i, k) from dp_matrix.hpp: dp[i][k * p7G_NSCELLS + p7G_I]. -/
def DPMatrix.insert (m : DPMatrix) (i k : ℕ) : Score :=
  m.dp i (k * p7G_NSCELLS + p7G_I)

/-- Accessor delete_state(i, k) from dp_matrix.hpp:
dp[i][k * p7G_NSCELLS + p7G_D]. -/
def DPMatrix.delete_state (m : DPMatrix) (i k : ℕ) : Score :=
  m.dp i (k * p7G_NSCELLS + p7G_D)

/-- Accessor special(i, s) from dp_matrix.hpp: xmx[i * p7G_NXCELLS + s]. -/
def DPMatrix.special (m : DPMatrix) (i s : ℕ) : Score :=
  m.xmx (i * p7G_NXCELLS + s)

/-- HMMProfile from include/profile.hpp. The flattened score tables are
modelled as total maps; the fields irrelevant to scoring (metadata,
transitions, special transitions, statistical parameters) are carried so
that independence claims about them can be stated. -/
structure HMMProfile where
  tsc : ℕ → Score
  rsc : ℕ → ℕ → Score
  xsc : ℕ → ℕ → Score
  mode : ℤ
  sequence_length : ℤ
  allocM : ℤ
  model_length : ℤ
  max_length : ℤ
  nj : ℚ
  evparam : ℕ → ℚ
  cutoff : ℕ → ℚ
  compo : ℕ → ℚ
  name : String

/-- Accessor match_score(k, x) from profile.hpp lines 114-120:
rsc[x][k * p7P_NR + p7P_MSC]. -/
def HMMProfile.match_score (gm : HMMProfile) (k residue_idx : ℕ) : Score :=
  gm.rsc residue_idx (k * p7P_NR + p7P_MSC)

/-- Accessor insert_score(k, x) from profile.hpp:
rsc[x][k * p7P_NR + p7P_ISC]. -/
def HMMProfile.insert_score (gm : HMMProfile) (k residue_idx : ℕ) : Score :=
  gm.rsc residue_idx (k * p7P_NR + p7P_ISC)

/-- Accessor trans(k, s) from profile.hpp: tsc[k * p7P_NTRANS + s]. -/
def HMMProfile.trans (gm : HMMProfile) (k state_idx : ℕ) : Score :=
  gm.tsc (k * p7P_NTRANS + state_idx)

/-- Write through the reference returned by match_score(k, x) in
profile.hpp: updates the single flattened rsc cell of residue row x. -/
def HMMProfile.write_match_score (gm : HMMProfile) (k residue_idx : ℕ)
    (v : Score) : HMMProfile :=
  { gm with
    rsc := fun x c =>
      if x = residue_idx ∧ c = k * p7P_NR + p7P_MSC then v else gm.rsc x c }

/-- Mutable memory visible to one compute_msv call: the digital sequence
buffer (declared const in the C signature, so immutability is something to
prove, not assume) and the DP matrix passed by reference. -/
structure MSVState where
  seq : ℕ → ℕ
  mat : DPMatrix

/-- Body of the inner loop of compute_msv (tests/stub_msv.cpp lines 58-81)
for one model position k of sequence row i: reads the previous diagonal
cell, applies the MSV recurrence with the zero floor, writes the cell and
updates the running maximum. -/
def msvColStep (gm : HMMProfile) (residue i : ℕ) (acc : Score × MSVState)
    (k : ℕ) : Score × MSVState :=
  let ms := gm.match_score k residue
  let start_new := ms
  let extend_prev := acc.2.mat.match_cell (i - 1) (k - 1) + ms
  let dp_value := max start_new extend_prev
  let dp_value2 := max (0 : Score) dp_value
  let max2 := if acc.1 < dp_value2 then dp_value2 else acc.1
  (max2, { acc.2 with mat := acc.2.mat.write_match i k dp_value2 })

/-- Body of the outer loop of compute_msv (tests/stub_msv.cpp lines 47-82)
for one sequence row i: reads the residue, and either zeroes the row
(residue at least 20, the invalid-residue branch with continue) or runs
the inner recurrence loop over k = 1..M. -/
def msvRow (gm : HMMProfile) (M : ℕ) (acc : Score × MSVState) (i : ℕ) :
    Score × MSVState :=
  let residue := acc.2.seq i
  if 20 ≤ residue then
    (acc.1,
     { acc.2 with
       mat := loopUp (fun m k => m.write_match i k (0 : Score)) acc.2.mat 1 M })
  else
    loopUp (msvColStep gm residue i) acc 1 M

/-- Function compute_msv from tests/stub_msv.cpp lines 28-87: returns 0 for
non-positive dimensions, otherwise zeroes row 0 of the match plane, fills
rows 1..L by the MSV recurrence and returns the running maximum together
with the final memory state. The expected_hit_count argument is accepted
and, as in the source, never read. -/
def compute_msv (st : MSVState) (sequence_length : ℤ) (gm : HMMProfile)
    (expected_hit_count : ℚ) : Score × MSVState :=
  if sequence_length ≤ 0 ∨ gm.model_length ≤ 0 then ((0 : Score), st)
  else
    let M := gm.model_length.toNat
    let L := sequence_length.toNat
    let st1 : MSVState :=
      { st with
        mat := loopUp (fun m k => m.write_match 0 k (0 : Score)) st.mat 0 (M + 1) }
    loopUp (msvRow gm M) ((0 : Score), st1) 1 L

/-- Pointwise update of a natural-valued table, modelling one array store
in the alphabet constructor. -/
def updFn (f : ℕ → ℕ) (i v : ℕ) : ℕ → ℕ := fun j => if j = i then v else f j

/-- Character codes of the symbol string of src/aa_alphabet.cpp line 6. -/
def alphabet_sym : List ℕ := "ACDEFGHIKLMNPQRSTVWY-BJZOUX*~".data.map Char.toNat

/-- AminoAcidAlphabet from include/aa_alphabet.hpp: dimensions, symbol
codes, the 128-entry input map and the flattened Kp-by-K degeneracy
matrix together with its per-row count ndegen. -/
structure AminoAcidAlphabet where
  K : ℕ
  Kp : ℕ
  type : ℤ
  sym : List ℕ
  inmap : ℕ → ℕ
  ndegen : ℕ → ℕ
  degen : ℕ → ℕ

/-- Accessor get_degen(row, col) from aa_alphabet.hpp: degen[row * K + col]. -/
def AminoAcidAlphabet.get_degen (abc : AminoAcidAlphabet) (row col : ℕ) : ℕ :=
  abc.degen (row * abc.K + col)

/-- Constructor AminoAcidAlphabet::AminoAcidAlphabet from
src/aa_alphabet.cpp lines 3-46: defaults the 128-entry input map to the
illegal sentinel and the degeneracy tables to zero, maps each of the 29
symbols to its own index, gives each of the 20 canonical residues a
self-degeneracy of one, and gives the any character at index Kp - 3
degeneracy one against all 20 canonical residues. -/
def AminoAcidAlphabet.construct : AminoAcidAlphabet :=
  let K : ℕ := 20
  let Kp : ℕ := 29
  let inmap0 : ℕ → ℕ := fun _ => digitalResidueIllegal
  let inmap1 := loopUp (fun m x => updFn m (alphabet_sym.getD x 0) x) inmap0 0 Kp
  let ndegen1 := loopUp (fun m x => updFn m x 1) (fun _ => 0) 0 K
  let degen1 := loopUp (fun m x => updFn m (x * K + x) 1) (fun _ => 0) 0 K
  let any_idx := Kp - 3
  let ndegen2 := updFn ndegen1 any_idx K
  let degen2 := loopUp (fun m y => updFn m (any_idx * K + y) 1) degen1 0 K
  { K := K, Kp := Kp, type := 0, sym := alphabet_sym,
    inmap := inmap1, ndegen := ndegen2, degen := degen2 }

/-- Constant-score profile in the shape built by
create_constant_score_profile in the test fixtures: model length M with
every match-score cell holding the constant c, all other score tables at
their constructor defaults. -/
def constProfile (M : ℤ) (c : ℚ) : HMMProfile where
  tsc := fun _ => ⊥
  rsc := fun _ _ => (c : Score)
  xsc := fun _ _ => (0 : Score)
  mode := 0
  sequence_length := 0
  allocM := M
  model_length := M
  max_length := -1
  nj := 0
  evparam := fun _ => 0
  cutoff := fun _ => 0
  compo := fun _ => 0
  name := "const"

/- Loop combinator lemmas. -/

theorem loopUp_zero {α : Type*} (f : α → ℕ → α) (a : α) (lo : ℕ) :
    loopUp f a lo 0 = a := rfl

theorem loopUp_succ {α : Type*} (f : α → ℕ → α) (a : α) (lo n : ℕ) :
    loopUp f a lo (n + 1) = f (loopUp f a lo n) (lo + n) := rfl

theorem loopUp_of_ne {α : Type*} (f : α → ℕ → α) (a : α) (lo n : ℕ) (h : n ≠ 0) :
    loopUp f a lo n = f (loopUp f a lo (n - 1)) (lo + (n - 1)) := by
  cases n with
  | zero => exact absurd rfl h
  | succ m => rfl

theorem loopUp_ind {α : Type*} (Q : ℕ → α → Prop) (f : α → ℕ → α) (lo : ℕ)
    (hstep : ∀ n a, Q n a → Q (n + 1) (f a (lo + n))) :
    ∀ n a, Q 0 a → Q n (loopUp f a lo n) := by
  intro n
  induction n with
  | zero => intro a h; exact h
  | succ n ih => intro a h; exact hstep n _ (ih a h)

theorem loopUp_inv {α : Type*} (P : α → Prop) (f : α → ℕ → α) (lo : ℕ) :
    ∀ n, (∀ a j, lo ≤ j → j < lo + n → P a → P (f a j)) →
      ∀ a, P a → P (loopUp f a lo n) := by
  intro n
  induction n with
  | zero => intro _ a ha; exact ha
  | succ n ih =>
      intro hstep a ha
      exact hstep _ (lo + n) (Nat.le_add_right _ _) (by omega)
        (ih (fun b j h1 h2 hb => hstep b j h1 (by omega) hb) a ha)

theorem loopUp_rel {α β : Type*} (R : α → β → Prop) (f : α → ℕ → α)
    (g : β → ℕ → β) (lo : ℕ) :
    ∀ n, (∀ a b j, lo ≤ j → j < lo + n → R a b → R (f a j) (g b j)) →
      ∀ a b, R a b → R (loopUp f a lo n) (loopUp g b lo n) := by
  intro n
  induction n with
  | zero => intro _ a b h; exact h
  | succ n ih =>
      intro hstep a b h
      exact hstep _ _ (lo + n) (Nat.le_add_right _ _) (by omega)
        (ih (fun a2 b2 j h1 h2 hr => hstep a2 b2 j h1 (by omega) hr) a b h)

theorem loopUp_add {α : Type*} (f : α → ℕ → α) (a : α) (lo m n : ℕ) :
    loopUp f a lo (m + n) = loopUp f (loopUp f a lo m) (lo + m) n := by
  induction n with
  | zero => rfl
  | succ n ih =>
      show f (loopUp f a lo (m + n)) (lo + (m + n)) = _
      rw [ih, loopUp_succ, Nat.add_assoc]

/- Score evaluation lemmas, pushing the order and arithmetic of the
extended score type down to rational literals. -/

theorem score_add_coe (a b : ℚ) :
    ((a : Score) + (b : Score)) = ((a + b : ℚ) : Score) :=
  (WithBot.coe_add a b).symm

theorem score_max_coe (a b : ℚ) :
    max (a : Score) (b : Score) = if a ≤ b then (b : Score) else (a : Score) := by
  rw [max_def]
  by_cases h : a ≤ b
  · rw [if_pos (WithBot.coe_le_coe.mpr h), if_pos h]
  · rw [if_neg (fun hc => h (WithBot.coe_le_coe.mp hc)), if_neg h]

theorem score_max_bot (x : Score) : max x ⊥ = x := max_eq_left bot_le

theorem score_bot_max (x : Score) : max ⊥ x = x := max_eq_right bot_le

theorem score_lt_coe (a b : ℚ) : ((a : Score) < (b : Score)) ↔ (a < b) :=
  WithBot.coe_lt_coe

theorem score_zero_coe : (0 : Score) = ((0 : ℚ) : Score) := rfl

theorem int_toNat_lit (n : ℕ) [n.AtLeastTwo] :
    (Int.toNat (no_index (OfNat.ofNat n))) = OfNat.ofNat n := rfl

theorem if_lt_max (a b : Score) : (if a < b then b else a) = max a b := by
  by_cases h : a < b
  · rw [if_pos h, max_eq_right h.le]
  · rw [if_neg h, max_eq_left (le_of_not_lt h)]

/- DPMatrix access lemmas. -/

theorem match_cell_eq (m : DPMatrix) (i k : ℕ) :
    m.match_cell i k = m.dp i (k * 3) := rfl

theorem write_match_dp (m : DPMatrix) (i k : ℕ) (v : Score) :
    (m.write_match i k v).dp =
      fun i2 c2 => if i2 = i ∧ c2 = k * 3 then v else m.dp i2 c2 := rfl

theorem write_match_xmx (m : DPMatrix) (i k : ℕ) (v : Score) :
    (m.write_match i k v).xmx = m.xmx := rfl

theorem write_match_match_cell (m : DPMatrix) (i k : ℕ) (v : Score) (i2 k2 : ℕ) :
    (m.write_match i k v).match_cell i2 k2 =
      if i2 = i ∧ k2 = k then v else m.match_cell i2 k2 := by
  rw [match_cell_eq, write_match_dp, match_cell_eq]
  by_cases h1 : i2 = i
  · by_cases h2 : k2 = k
    · simp [h1, h2]
    · have hc : ¬ (k2 * 3 = k * 3) := by omega
      simp [h1, h2, hc]
  · simp [h1]

theorem write_match_dp_frame (m : DPMatrix) (i k : ℕ) (v : Score) (i2 c2 : ℕ)
    (h : i2 ≠ i ∨ c2 ≠ k * 3) :
    (m.write_match i k v).dp i2 c2 = m.dp i2 c2 := by
  rw [write_match_dp]
  rcases h with h | h <;> simp [h]

/- Preservation facts for the loop bodies of compute_msv. -/

theorem msvColStep_seq (gm : HMMProfile) (residue i : ℕ) (acc : Score × MSVState)
    (k : ℕ) : (msvColStep gm residue i acc k).2.seq = acc.2.seq := rfl

theorem msvColStep_xmx (gm : HMMProfile) (residue i : ℕ) (acc : Score × MSVState)
    (k : ℕ) : (msvColStep gm residue i acc k).2.mat.xmx = acc.2.mat.xmx := rfl

theorem msvColStep_fst (gm : HMMProfile) (residue i : ℕ) (acc : Score × MSVState)
    (k : ℕ) :
    (msvColStep gm residue i acc k).1 =
      max acc.1 (max (0 : Score)
        (max (gm.match_score k residue)
          (acc.2.mat.match_cell (i - 1) (k - 1) + gm.match_score k residue))) := by
  simp only [msvColStep]
  rw [if_lt_max]

theorem msvColStep_mat (gm : HMMProfile) (residue i : ℕ) (acc : Score × MSVState)
    (k : ℕ) :
    (msvColStep gm residue i acc k).2.mat =
      acc.2.mat.write_match i k
        (max (0 : Score)
          (max (gm.match_score k residue)
            (acc.2.mat.match_cell (i - 1) (k - 1) + gm.match_score k residue))) := rfl

theorem msvColStep_fst_mono (gm : HMMProfile) (residue i : ℕ)
    (acc : Score × MSVState) (k : ℕ) : acc.1 ≤ (msvColStep gm residue i acc k).1 := by
  rw [msvColStep_fst]
  exact le_max_left _ _

theorem msvRow_seq (gm : HMMProfile) (M : ℕ) (acc : Score × MSVState) (i : ℕ) :
    (msvRow gm M acc i).2.seq = acc.2.seq := by
  unfold msvRow
  by_cases h : 20 ≤ acc.2.seq i
  · rw [if_pos h]
  · rw [if_neg h]
    exact loopUp_inv (fun a => a.2.seq = acc.2.seq)
      (msvColStep gm (acc.2.seq i) i) 1 M
      (fun a j _ _ ha => by simp only [msvColStep_seq, ha]) acc rfl

theorem msvRow_xmx (gm : HMMProfile) (M : ℕ) (acc : Score × MSVState) (i : ℕ) :
    (msvRow gm M acc i).2.mat.xmx = acc.2.mat.xmx := by
  unfold msvRow
  by_cases h : 20 ≤ acc.2.seq i
  · rw [if_pos h]
    exact loopUp_inv (fun m => m.xmx = acc.2.mat.xmx)
      (fun m k => m.write_match i k (0 : Score)) 1 M
      (fun m j _ _ hm => by simp only [write_match_xmx, hm]) acc.2.mat rfl
  · rw [if_neg h]
    exact loopUp_inv (fun a => a.2.mat.xmx = acc.2.mat.xmx)
      (msvColStep gm (acc.2.seq i) i) 1 M
      (fun a j _ _ ha => by simp only [msvColStep_xmx, ha]) acc rfl

theorem msvRow_fst_mono (gm : HMMProfile) (M : ℕ) (acc : Score × MSVState)
    (i : ℕ) : acc.1 ≤ (msvRow gm M acc i).1 := by
  unfold msvRow
  by_cases h : 20 ≤ acc.2.seq i
  · rw [if_pos h]
  · rw [if_neg h]
    exact loopUp_inv (fun a => acc.1 ≤ a.1)
      (msvColStep gm (acc.2.seq i) i) 1 M
      (fun a j _ _ ha => le_trans ha (msvColStep_fst_mono gm _ i a j)) acc le_rfl

theorem msvRow_dp_frame (gm : HMMProfile) (M : ℕ) (acc : Score × MSVState)
    (i i2 c2 : ℕ) (h : i2 ≠ i) :
    (msvRow gm M acc i).2.mat.dp i2 c2 = acc.2.mat.dp i2 c2 := by
  unfold msvRow
  by_cases hr : 20 ≤ acc.2.seq i
  · rw [if_pos hr]
    exact loopUp_inv (fun m => m.dp i2 c2 = acc.2.mat.dp i2 c2)
      (fun m k => m.write_match i k (0 : Score)) 1 M
      (fun m j _ _ hm => by simp only []; rw [write_match_dp_frame m i j _ i2 c2 (Or.inl h), hm])
      acc.2.mat rfl
  · rw [if_neg hr]
    exact loopUp_inv (fun a => a.2.mat.dp i2 c2 = acc.2.mat.dp i2 c2)
      (msvColStep gm (acc.2.seq i) i) 1 M
      (fun a j _ _ ha => by
        simp only []
        rw [msvColStep_mat, write_match_dp_frame _ i j _ i2 c2 (Or.inl h), ha]) acc rfl

/- Whole-run preservation lemmas. -/

theorem compute_msv_seq (st : MSVState) (sl : ℤ) (gm : HMMProfile) (e : ℚ) :
    (compute_msv st sl gm e).2.seq = st.seq := by
  unfold compute_msv
  by_cases h : sl ≤ 0 ∨ gm.model_length ≤ 0
  · rw [if_pos h]
  · rw [if_neg h]
    show (loopUp (msvRow gm gm.model_length.toNat)
      ((0 : Score),
        { st with
          mat := loopUp (fun m k => m.write_match 0 k (0 : Score)) st.mat 0
            (gm.model_length.toNat + 1) }) 1 sl.toNat).2.seq = st.seq
    exact loopUp_inv (fun a => a.2.seq = st.seq)
      (msvRow gm gm.model_length.toNat) 1 sl.toNat
      (fun a j _ _ ha => by simp only [msvRow_seq, ha])
      ((0 : Score),
        { st with
          mat := loopUp (fun m k => m.write_match 0 k (0 : Score)) st.mat 0
            (gm.model_length.toNat + 1) }) rfl

theorem compute_msv_fst_nonneg (st : MSVState) (sl : ℤ) (gm : HMMProfile)
    (e : ℚ) : (0 : Score) ≤ (compute_msv st sl gm e).1 := by
  unfold compute_msv
  by_cases h : sl ≤ 0 ∨ gm.model_length ≤ 0
  · rw [if_pos h]
  · rw [if_neg h]
    show (0 : Score) ≤ (loopUp (msvRow gm gm.model_length.toNat)
      ((0 : Score),
        { st with
          mat := loopUp (fun m k => m.write_match 0 k (0 : Score)) st.mat 0
            (gm.model_length.toNat + 1) }) 1 sl.toNat).1
    exact loopUp_inv (fun a => (0 : Score) ≤ a.1)
      (msvRow gm gm.model_length.toNat) 1 sl.toNat
      (fun a j _ _ ha => le_trans ha (msvRow_fst_mono gm _ a j))
      ((0 : Score),
        { st with
          mat := loopUp (fun m k => m.write_match 0 k (0 : Score)) st.mat 0
            (gm.model_length.toNat + 1) }) le_rfl

theorem compute_msv_xmx (st : MSVState) (sl : ℤ) (gm : HMMProfile) (e : ℚ) :
    (compute_msv st sl gm e).2.mat.xmx = st.mat.xmx := by
  unfold compute_msv
  by_cases h : sl ≤ 0 ∨ gm.model_length ≤ 0
  · rw [if_pos h]
  · rw [if_neg h]
    show (loopUp (msvRow gm gm.model_length.toNat)
      ((0 : Score),
        { st with
          mat := loopUp (fun m k => m.write_match 0 k (0 : Score)) st.mat 0
            (gm.model_length.toNat + 1) }) 1 sl.toNat).2.mat.xmx = st.mat.xmx
    refine loopUp_inv (fun a => a.2.mat.xmx = st.mat.xmx)
      (msvRow gm gm.model_length.toNat) 1 sl.toNat
      (fun a j _ _ ha => by simp only [msvRow_xmx, ha])
      ((0 : Score),
        { st with
          mat := loopUp (fun m k => m.write_match 0 k (0 : Score)) st.mat 0
            (gm.model_length.toNat + 1) }) ?_
    show (loopUp (fun m k => m.write_match 0 k (0 : Score)) st.mat 0
      (gm.model_length.toNat + 1)).xmx = st.mat.xmx
    exact loopUp_inv (fun m => m.xmx = st.mat.xmx)
      (fun m k => m.write_match 0 k (0 : Score)) 0 (gm.model_length.toNat + 1)
      (fun m j _ _ hm => by simp only []; rw [write_match_xmx, hm]) st.mat rfl

/-- C7: after any scoring call the sequence buffer is untouched: the engine
never writes to any element of the digital sequence, so in particular the
sentinel cells at positions 0 and L+1 hold exactly the values they held
before the call. -/
theorem C7_sentinel_immutability (st : MSVState) (sl : ℤ) (gm : HMMProfile)
    (e : ℚ) :
    (compute_msv st sl gm e).2.seq = st.seq ∧
      (compute_msv st sl gm e).2.seq 0 = st.seq 0 ∧
      (compute_msv st sl gm e).2.seq (sl.toNat + 1) = st.seq (sl.toNat + 1) := by
  refine ⟨compute_msv_seq st sl gm e, ?_, ?_⟩ <;>
    rw [compute_msv_seq st sl gm e]

/-- C6: for non-positive model length or non-positive sequence length the
engine returns the defined value 0 (and, being a total function, cannot
fail): the guard at stub_msv.cpp lines 32-34. -/
theorem C6_nonpositive_dims (st : MSVState) (sl : ℤ) (gm : HMMProfile) (e : ℚ)
    (h : sl ≤ 0 ∨ gm.model_length ≤ 0) :
    (compute_msv st sl gm e).1 = (0 : Score) := by
  unfold compute_msv
  rw [if_pos h]

/-- C6 witness: the empty-sequence call returns 0. -/
theorem C6_witness :
    (compute_msv ⟨fun _ => 0, DPMatrix.construct 5 0⟩ 0 (constProfile 5 1) 0).1
      = (0 : Score) :=
  C6_nonpositive_dims ⟨fun _ => 0, DPMatrix.construct 5 0⟩ 0 (constProfile 5 1) 0
    (Or.inl le_rfl)

/-- C2: the score returned by compute_msv is never negative, for every
state, sequence length, profile and expected hit count; and on the
all-negative constant profile with M = 5, L = 5 and every match score -2
the returned score is exactly 0 (every cell floors to 0), not -2. -/
theorem C2_zero_floor :
    (∀ (st : MSVState) (sl : ℤ) (gm : HMMProfile) (e : ℚ),
      (0 : Score) ≤ (compute_msv st sl gm e).1) ∧
    (compute_msv ⟨fun _ => 0, DPMatrix.construct 5 5⟩ 5 (constProfile 5 (-2)) 0).1
      = ((0 : ℚ) : Score) ∧
    (compute_msv ⟨fun _ => 0, DPMatrix.construct 5 5⟩ 5 (constProfile 5 (-2)) 0).1
      ≠ ((-2 : ℚ) : Score) := by
  have heval :
      (compute_msv ⟨fun _ => 0, DPMatrix.construct 5 5⟩ 5
        (constProfile 5 (-2)) 0).1 = ((0 : ℚ) : Score) := by
    norm_num [compute_msv, msvRow, msvColStep, constProfile, HMMProfile.match_score,
      DPMatrix.construct, DPMatrix.match_cell, DPMatrix.write_match,
      loopUp_of_ne, loopUp_zero, p7G_NSCELLS, p7G_M, p7P_NR, p7P_MSC, int_toNat_lit,
      score_add_coe, score_max_coe, score_max_bot, score_bot_max, score_lt_coe,
      score_zero_coe, WithBot.bot_add, WithBot.add_bot]
  refine ⟨fun st sl gm e => compute_msv_fst_nonneg st sl gm e, heval, ?_⟩
  rw [heval]
  simp only [ne_eq, WithBot.coe_inj]
  norm_num

/-- C4 counterexample: the claim says the constructor initializes row 0 of
the match plane to 0; in fact the constructor of dp_matrix.hpp fills every
cell with negative infinity, so already the row-0 cell (0, 0) of a 1-by-1
matrix is negative infinity, not 0. -/
theorem C4_counterexample :
    (DPMatrix.construct 1 1).match_cell 0 0 ≠ (0 : Score) := by
  rw [match_cell_eq]
  exact fun h => absurd h (by simp [DPMatrix.construct])

/-- C4 amended: the DPMatrix constructor initializes every match-plane
cell — including all of row 0 and column 0 — and every insert-state,
delete-state and special-state cell to negative infinity; no cell is
initialized to 0 (row 0 of the match plane is zeroed later, by
compute_msv itself). -/
theorem C4_construct_all_neg_infinity (M L : ℤ) (i k s : ℕ) :
    (DPMatrix.construct M L).match_cell i k = ⊥ ∧
      (DPMatrix.construct M L).insert i k = ⊥ ∧
      (DPMatrix.construct M L).delete_state i k = ⊥ ∧
      (DPMatrix.construct M L).special i s = ⊥ :=
  ⟨rfl, rfl, rfl, rfl⟩

/-- C8: the alphabet constructor establishes: every canonical index x in
[0, 20) has ndegen one, self-degeneracy one, zero degeneracy against every
other canonical residue, and an input map sending its own symbol code back
to x; the wildcard index Kp - 3 = 26 carries the symbol X, ndegen 20 and
degeneracy one against all 20 canonical residues; every other ambiguity
index in [20, 29) has ndegen zero and an all-zero degeneracy row; and
every ASCII code below 128 that does not occur among the 29 symbol codes
maps to the illegal sentinel index. -/
theorem C8_alphabet_construct :
    (∀ x < 20,
      AminoAcidAlphabet.construct.ndegen x = 1 ∧
      AminoAcidAlphabet.construct.get_degen x x = 1 ∧
      (∀ y < 20, y ≠ x → AminoAcidAlphabet.construct.get_degen x y = 0) ∧
      AminoAcidAlphabet.construct.inmap
        (AminoAcidAlphabet.construct.sym.getD x 0) = x) ∧
    (AminoAcidAlphabet.construct.Kp - 3 = 26 ∧
      AminoAcidAlphabet.construct.sym.getD 26 0 = Char.toNat 'X' ∧
      AminoAcidAlphabet.construct.ndegen 26 = 20 ∧
      ∀ y < 20, AminoAcidAlphabet.construct.get_degen 26 y = 1) ∧
    (∀ r < 29, 20 ≤ r → r ≠ 26 →
      AminoAcidAlphabet.construct.ndegen r = 0 ∧
      ∀ y < 20, AminoAcidAlphabet.construct.get_degen r y = 0) ∧
    (∀ c < 128, c ∉ alphabet_sym →
      AminoAcidAlphabet.construct.inmap c = digitalResidueIllegal) := by
  decide

/- Characterization of the write sets of the three loops of compute_msv. -/

theorem initRow0_dp (m0 : DPMatrix) (n : ℕ) :
    ∀ i2 c2, (loopUp (fun m k => m.write_match 0 k (0 : Score)) m0 0 n).dp i2 c2 =
      if i2 = 0 ∧ c2 % 3 = 0 ∧ c2 / 3 < n then (0 : Score) else m0.dp i2 c2 := by
  refine loopUp_ind
    (fun n m => ∀ i2 c2, m.dp i2 c2 =
      if i2 = 0 ∧ c2 % 3 = 0 ∧ c2 / 3 < n then (0 : Score) else m0.dp i2 c2)
    (fun m k => m.write_match 0 k (0 : Score)) 0 ?_ n m0 ?_
  · intro n m hm i2 c2
    simp only []
    rw [write_match_dp]
    simp only []
    rw [hm i2 c2]
    split_ifs <;> first | rfl | (exfalso; omega)
  · intro i2 c2
    split_ifs <;> first | rfl | (exfalso; omega)

theorem skipRow_dp (i0 : ℕ) (m0 : DPMatrix) (n : ℕ) :
    ∀ i2 c2, (loopUp (fun m k => m.write_match i0 k (0 : Score)) m0 1 n).dp i2 c2 =
      if i2 = i0 ∧ c2 % 3 = 0 ∧ 1 ≤ c2 / 3 ∧ c2 / 3 < 1 + n then (0 : Score)
      else m0.dp i2 c2 := by
  refine loopUp_ind
    (fun n m => ∀ i2 c2, m.dp i2 c2 =
      if i2 = i0 ∧ c2 % 3 = 0 ∧ 1 ≤ c2 / 3 ∧ c2 / 3 < 1 + n then (0 : Score)
      else m0.dp i2 c2)
    (fun m k => m.write_match i0 k (0 : Score)) 1 ?_ n m0 ?_
  · intro n m hm i2 c2
    simp only []
    rw [write_match_dp]
    simp only []
    rw [hm i2 c2]
    split_ifs <;> first | rfl | (exfalso; omega)
  · intro i2 c2
    split_ifs <;> first | rfl | (exfalso; omega)

theorem msvRow_dp_written (gm : HMMProfile) (M : ℕ) (acc : Score × MSVState)
    (i i2 c2 : ℕ)
    (h : ¬ (i2 = i ∧ c2 % 3 = 0 ∧ 1 ≤ c2 / 3 ∧ c2 / 3 ≤ M)) :
    (msvRow gm M acc i).2.mat.dp i2 c2 = acc.2.mat.dp i2 c2 := by
  unfold msvRow
  by_cases hr : 20 ≤ acc.2.seq i
  · rw [if_pos hr]
    show (loopUp (fun m k => m.write_match i k (0 : Score)) acc.2.mat 1 M).dp i2 c2
      = acc.2.mat.dp i2 c2
    rw [skipRow_dp i acc.2.mat M i2 c2]
    rw [if_neg (fun hc => h ⟨hc.1, hc.2.1, hc.2.2.1, by omega⟩)]
  · rw [if_neg hr]
    refine loopUp_inv (fun a => a.2.mat.dp i2 c2 = acc.2.mat.dp i2 c2)
      (msvColStep gm (acc.2.seq i) i) 1 M ?_ acc rfl
    intro a j h1 h2 ha
    rw [msvColStep_mat]
    rw [write_match_dp_frame _ i j _ i2 c2 ?_, ha]
    by_cases hi : i2 = i
    · right
      intro hc
      exact h ⟨hi, by omega⟩
    · left; exact hi

theorem rows_fold_seq (gm : HMMProfile) (M : ℕ) (acc : Score × MSVState)
    (lo n : ℕ) : (loopUp (msvRow gm M) acc lo n).2.seq = acc.2.seq :=
  loopUp_inv (fun a => a.2.seq = acc.2.seq) (msvRow gm M) lo n
    (fun a j _ _ ha => by simp only [msvRow_seq, ha]) acc rfl

theorem compute_msv_dp_frame (st : MSVState) (sl : ℤ) (gm : HMMProfile) (e : ℚ)
    (i2 c2 : ℕ)
    (h0 : ¬ (i2 = 0 ∧ c2 % 3 = 0 ∧ c2 / 3 < gm.model_length.toNat + 1))
    (h1 : ¬ (1 ≤ i2 ∧ i2 ≤ sl.toNat ∧ c2 % 3 = 0 ∧ 1 ≤ c2 / 3 ∧
      c2 / 3 ≤ gm.model_length.toNat)) :
    (compute_msv st sl gm e).2.mat.dp i2 c2 = st.mat.dp i2 c2 := by
  unfold compute_msv
  by_cases h : sl ≤ 0 ∨ gm.model_length ≤ 0
  · rw [if_pos h]
  · rw [if_neg h]
    show (loopUp (msvRow gm gm.model_length.toNat)
      ((0 : Score),
        { st with
          mat := loopUp (fun m k => m.write_match 0 k (0 : Score)) st.mat 0
            (gm.model_length.toNat + 1) }) 1 sl.toNat).2.mat.dp i2 c2
      = st.mat.dp i2 c2
    refine loopUp_inv (fun a => a.2.mat.dp i2 c2 = st.mat.dp i2 c2)
      (msvRow gm gm.model_length.toNat) 1 sl.toNat ?_ _ ?_
    · intro a j hj1 hj2 ha
      rw [msvRow_dp_written gm _ a j i2 c2 ?_, ha]
      intro hc
      exact h1 ⟨by omega, by omega, hc.2.1, hc.2.2.1, hc.2.2.2⟩
    · show (loopUp (fun m k => m.write_match 0 k (0 : Score)) st.mat 0
        (gm.model_length.toNat + 1)).dp i2 c2 = st.mat.dp i2 c2
      rw [initRow0_dp st.mat (gm.model_length.toNat + 1) i2 c2, if_neg h0]

/-- C9: compute_msv writes only match-plane cells: on a freshly constructed
matrix, after the call every match-plane cell of column 0 in rows 1..L,
every insert-state cell, every delete-state cell and every special-state
cell still holds the constructor value, negative infinity. -/
theorem C9_writes_only_match_plane (st : MSVState) (sl : ℤ) (gm : HMMProfile)
    (e : ℚ) (hmat : st.mat = DPMatrix.construct gm.model_length sl) :
    (∀ i2, 1 ≤ i2 → i2 ≤ sl.toNat →
      (compute_msv st sl gm e).2.mat.match_cell i2 0 = ⊥) ∧
    (∀ i2 k, i2 ≤ sl.toNat → k ≤ gm.model_length.toNat →
      (compute_msv st sl gm e).2.mat.insert i2 k = ⊥) ∧
    (∀ i2 k, i2 ≤ sl.toNat → k ≤ gm.model_length.toNat →
      (compute_msv st sl gm e).2.mat.delete_state i2 k = ⊥) ∧
    (∀ i2 s, i2 ≤ sl.toNat → s < 5 →
      (compute_msv st sl gm e).2.mat.special i2 s = ⊥) := by
  refine ⟨?_, ?_, ?_, ?_⟩
  · intro i2 hi1 hi2
    show (compute_msv st sl gm e).2.mat.dp i2 0 = ⊥
    rw [compute_msv_dp_frame st sl gm e i2 0 (by omega) (by omega), hmat]
    rfl
  · intro i2 k _ _
    show (compute_msv st sl gm e).2.mat.dp i2 (k * 3 + 1) = ⊥
    rw [compute_msv_dp_frame st sl gm e i2 (k * 3 + 1) (by omega) (by omega), hmat]
    rfl
  · intro i2 k _ _
    show (compute_msv st sl gm e).2.mat.dp i2 (k * 3 + 2) = ⊥
    rw [compute_msv_dp_frame st sl gm e i2 (k * 3 + 2) (by omega) (by omega), hmat]
    rfl
  · intro i2 s _ _
    show (compute_msv st sl gm e).2.mat.xmx (i2 * 5 + s) = ⊥
    rw [compute_msv_xmx st sl gm e, hmat]
    rfl

/-- C9 witness: on a fresh 1-by-1 run all non-match-plane cells stay at
negative infinity. -/
theorem C9_witness :
    (∀ i2, 1 ≤ i2 → i2 ≤ (1 : ℤ).toNat →
      (compute_msv ⟨fun _ => 0, DPMatrix.construct 1 1⟩ 1 (constProfile 1 1)
        0).2.mat.match_cell i2 0 = ⊥) ∧
    (∀ i2 k, i2 ≤ (1 : ℤ).toNat → k ≤ (constProfile 1 1).model_length.toNat →
      (compute_msv ⟨fun _ => 0, DPMatrix.construct 1 1⟩ 1 (constProfile 1 1)
        0).2.mat.insert i2 k = ⊥) ∧
    (∀ i2 k, i2 ≤ (1 : ℤ).toNat → k ≤ (constProfile 1 1).model_length.toNat →
      (compute_msv ⟨fun _ => 0, DPMatrix.construct 1 1⟩ 1 (constProfile 1 1)
        0).2.mat.delete_state i2 k = ⊥) ∧
    (∀ i2 s, i2 ≤ (1 : ℤ).toNat → s < 5 →
      (compute_msv ⟨fun _ => 0, DPMatrix.construct 1 1⟩ 1 (constProfile 1 1)
        0).2.mat.special i2 s = ⊥) :=
  C9_writes_only_match_plane ⟨fun _ => 0, DPMatrix.construct 1 1⟩ 1
    (constProfile 1 1) 0 rfl

theorem msvRow_skip_mat (gm : HMMProfile) (M : ℕ) (acc : Score × MSVState)
    (i : ℕ) (h : 20 ≤ acc.2.seq i) :
    (msvRow gm M acc i).2.mat =
      loopUp (fun m k => m.write_match i k (0 : Score)) acc.2.mat 1 M := by
  unfold msvRow
  rw [if_pos h]

/-- C3 counterexample: the claim predicts DP(i, k) = max(0, DP(i-1, k-1))
at a non-canonical residue; on M = 2, L = 2, all match scores 1, sequence
residues (A, 25), the code leaves DP(2, 2) = 0 while max(0, DP(1, 1)) = 1:
the invalid-residue branch resets the cell to 0 instead of carrying the
diagonal value. -/
theorem C3_counterexample :
    ¬ ((compute_msv ⟨fun i => if i = 2 then 25 else 0, DPMatrix.construct 2 2⟩ 2
        (constProfile 2 1) 0).2.mat.match_cell 2 2 =
      max (0 : Score)
        ((compute_msv ⟨fun i => if i = 2 then 25 else 0, DPMatrix.construct 2 2⟩ 2
          (constProfile 2 1) 0).2.mat.match_cell 1 1)) := by
  norm_num [compute_msv, msvRow, msvColStep, constProfile, HMMProfile.match_score,
    DPMatrix.construct, DPMatrix.match_cell, DPMatrix.write_match,
    loopUp_of_ne, loopUp_zero, p7G_NSCELLS, p7G_M, p7P_NR, p7P_MSC, int_toNat_lit,
    score_add_coe, score_max_coe, score_max_bot, score_bot_max, score_lt_coe,
    score_zero_coe, WithBot.bot_add, WithBot.add_bot, WithBot.coe_inj]

/-- C3 amended: when the residue at sequence position i0 in [1, L] is not
canonical (at least 20, including the illegal marker), compute_msv writes 0
into every match cell DP(i0, k) for k in [1, M]: the cell is reset to zero
rather than carrying max(0, DP(i0-1, k-1)) along the diagonal, so the
running segment is broken at that position. -/
theorem C3_invalid_residue_zeroes_row (st : MSVState) (sl : ℤ) (gm : HMMProfile)
    (e : ℚ) (L i0 : ℕ) (hL : sl = (L : ℤ)) (h1 : 1 ≤ i0) (h2 : i0 ≤ L)
    (hres : 20 ≤ st.seq i0) :
    ∀ k, 1 ≤ k → k ≤ gm.model_length.toNat →
      (compute_msv st sl gm e).2.mat.match_cell i0 k = (0 : Score) := by
  intro k hk1 hk2
  obtain ⟨n, rfl⟩ : ∃ n, i0 = n + 1 := ⟨i0 - 1, by omega⟩
  unfold compute_msv
  by_cases h : sl ≤ 0 ∨ gm.model_length ≤ 0
  · exfalso
    rcases h with h | h
    · omega
    · have : gm.model_length.toNat = 0 := by omega
      omega
  · rw [if_neg h]
    show (loopUp (msvRow gm gm.model_length.toNat)
      ((0 : Score),
        { st with
          mat := loopUp (fun m k => m.write_match 0 k (0 : Score)) st.mat 0
            (gm.model_length.toNat + 1) }) 1 sl.toNat).2.mat.match_cell (n + 1) k
      = (0 : Score)
    have hsl : sl.toNat = (n + 1) + (L - (n + 1)) := by omega
    rw [hsl, loopUp_add]
    refine loopUp_inv (fun a => a.2.mat.match_cell (n + 1) k = (0 : Score))
      (msvRow gm gm.model_length.toNat) (1 + (n + 1)) (L - (n + 1)) ?_ _ ?_
    · intro a j hj1 hj2 ha
      show (msvRow gm gm.model_length.toNat a j).2.mat.dp (n + 1) (k * 3)
        = (0 : Score)
      rw [msvRow_dp_written gm _ a j (n + 1) (k * 3) (by omega), ← match_cell_eq]
      exact ha
    · show (loopUp (msvRow gm gm.model_length.toNat)
        ((0 : Score),
          { st with
            mat := loopUp (fun m k => m.write_match 0 k (0 : Score)) st.mat 0
              (gm.model_length.toNat + 1) }) 1 (n + 1)).2.mat.match_cell (n + 1) k
        = (0 : Score)
      rw [loopUp_succ]
      have h1n : 1 + n = n + 1 := by omega
      rw [h1n]
      have hresidue : 20 ≤ (loopUp (msvRow gm gm.model_length.toNat)
          ((0 : Score),
            { st with
              mat := loopUp (fun m k => m.write_match 0 k (0 : Score)) st.mat 0
                (gm.model_length.toNat + 1) }) 1 n).2.seq (n + 1) := by
        rw [rows_fold_seq]
        exact hres
      rw [match_cell_eq, msvRow_skip_mat gm _ _ _ hresidue, skipRow_dp]
      rw [if_pos ⟨rfl, by omega, by omega, by omega⟩]

/-- C3 witness: the amended statement at the concrete run of the
counterexample, cell (2, 1), where row 2 carries the non-canonical
residue 25. -/
theorem C3_witness :
    (compute_msv ⟨fun i => if i = 2 then 25 else 0, DPMatrix.construct 2 2⟩ 2
      (constProfile 2 1) 0).2.mat.match_cell 2 1 = (0 : Score) :=
  C3_invalid_residue_zeroes_row
    ⟨fun i => if i = 2 then 25 else 0, DPMatrix.construct 2 2⟩ 2
    (constProfile 2 1) 0 2 2 (by norm_num) (by norm_num) (by norm_num)
    (by norm_num) 1 (by norm_num) (by decide)

/- Pointwise monotonicity of one engine step in the match scores, the
running maximum and the matrix contents. -/

theorem msvColStep_le (gm1 gm2 : HMMProfile) (r i : ℕ) (a b : Score × MSVState)
    (k : ℕ) (hmu : gm1.match_score k r ≤ gm2.match_score k r)
    (hfst : a.1 ≤ b.1)
    (hdp : ∀ i2 c2, a.2.mat.dp i2 c2 ≤ b.2.mat.dp i2 c2) :
    (msvColStep gm1 r i a k).1 ≤ (msvColStep gm2 r i b k).1 ∧
      (∀ i2 c2, (msvColStep gm1 r i a k).2.mat.dp i2 c2 ≤
        (msvColStep gm2 r i b k).2.mat.dp i2 c2) := by
  have hv : max (0 : Score) (max (gm1.match_score k r)
        (a.2.mat.match_cell (i - 1) (k - 1) + gm1.match_score k r)) ≤
      max (0 : Score) (max (gm2.match_score k r)
        (b.2.mat.match_cell (i - 1) (k - 1) + gm2.match_score k r)) := by
    refine max_le_max le_rfl (max_le_max hmu (add_le_add ?_ hmu))
    rw [match_cell_eq, match_cell_eq]
    exact hdp _ _
  constructor
  · rw [msvColStep_fst, msvColStep_fst]
    exact max_le_max hfst hv
  · intro i2 c2
    rw [msvColStep_mat, msvColStep_mat, write_match_dp, write_match_dp]
    simp only []
    by_cases hc : i2 = i ∧ c2 = k * 3
    · rw [if_pos hc, if_pos hc]
      exact hv
    · rw [if_neg hc, if_neg hc]
      exact hdp i2 c2

theorem msvRow_le (gm1 gm2 : HMMProfile) (M : ℕ) (a b : Score × MSVState)
    (i : ℕ)
    (hmu : ∀ k r, 1 ≤ k → k ≤ M → r < 20 →
      gm1.match_score k r ≤ gm2.match_score k r)
    (hseq : a.2.seq i = b.2.seq i)
    (hfst : a.1 ≤ b.1)
    (hdp : ∀ i2 c2, a.2.mat.dp i2 c2 ≤ b.2.mat.dp i2 c2) :
    (msvRow gm1 M a i).1 ≤ (msvRow gm2 M b i).1 ∧
      (∀ i2 c2, (msvRow gm1 M a i).2.mat.dp i2 c2 ≤
        (msvRow gm2 M b i).2.mat.dp i2 c2) := by
  unfold msvRow
  by_cases hr : 20 ≤ a.2.seq i
  · rw [if_pos hr, if_pos (hseq ▸ hr)]
    refine ⟨hfst, ?_⟩
    intro i2 c2
    show (loopUp (fun m k => m.write_match i k (0 : Score)) a.2.mat 1 M).dp i2 c2
      ≤ (loopUp (fun m k => m.write_match i k (0 : Score)) b.2.mat 1 M).dp i2 c2
    rw [skipRow_dp, skipRow_dp]
    by_cases hc : i2 = i ∧ c2 % 3 = 0 ∧ 1 ≤ c2 / 3 ∧ c2 / 3 < 1 + M
    · rw [if_pos hc, if_pos hc]
    · rw [if_neg hc, if_neg hc]
      exact hdp i2 c2
  · rw [if_neg hr, if_neg (hseq ▸ hr)]
    rw [← hseq]
    have h20 : a.2.seq i < 20 := lt_of_not_ge hr
    exact loopUp_rel
      (fun x y => x.1 ≤ y.1 ∧ ∀ i2 c2, x.2.mat.dp i2 c2 ≤ y.2.mat.dp i2 c2)
      (msvColStep gm1 (a.2.seq i) i) (msvColStep gm2 (a.2.seq i) i) 1 M
      (fun x y j hj1 hj2 hxy =>
        msvColStep_le gm1 gm2 (a.2.seq i) i x y j
          (hmu j (a.2.seq i) hj1 (by omega) h20) hxy.1 hxy.2)
      a b ⟨hfst, hdp⟩

theorem compute_msv_mono (st1 st2 : MSVState) (sl : ℤ) (gm1 gm2 : HMMProfile)
    (e1 e2 : ℚ)
    (hml : gm1.model_length = gm2.model_length)
    (hseq : ∀ i, 1 ≤ i → i ≤ sl.toNat → st1.seq i = st2.seq i)
    (hdp : ∀ i c, st1.mat.dp i c ≤ st2.mat.dp i c)
    (hmu : ∀ k r, 1 ≤ k → k ≤ gm1.model_length.toNat → r < 20 →
      gm1.match_score k r ≤ gm2.match_score k r) :
    (compute_msv st1 sl gm1 e1).1 ≤ (compute_msv st2 sl gm2 e2).1 := by
  unfold compute_msv
  by_cases h : sl ≤ 0 ∨ gm1.model_length ≤ 0
  · rw [if_pos h, if_pos (by rw [← hml]; exact h)]
  · rw [if_neg h, if_neg (by rw [← hml]; exact h), ← hml]
    show (loopUp (msvRow gm1 gm1.model_length.toNat)
      ((0 : Score),
        { st1 with
          mat := loopUp (fun m k => m.write_match 0 k (0 : Score)) st1.mat 0
            (gm1.model_length.toNat + 1) }) 1 sl.toNat).1
      ≤ (loopUp (msvRow gm2 gm1.model_length.toNat)
      ((0 : Score),
        { st2 with
          mat := loopUp (fun m k => m.write_match 0 k (0 : Score)) st2.mat 0
            (gm1.model_length.toNat + 1) }) 1 sl.toNat).1
    have hR := loopUp_rel
      (fun x y => (x.1 ≤ y.1 ∧ ∀ i2 c2, x.2.mat.dp i2 c2 ≤ y.2.mat.dp i2 c2) ∧
        x.2.seq = st1.seq ∧ y.2.seq = st2.seq)
      (msvRow gm1 gm1.model_length.toNat) (msvRow gm2 gm1.model_length.toNat)
      1 sl.toNat
      (fun x y j hj1 hj2 hxy => by
        refine ⟨msvRow_le gm1 gm2 gm1.model_length.toNat x y j hmu ?_
          hxy.1.1 hxy.1.2, ?_, ?_⟩
        · rw [hxy.2.1, hxy.2.2]
          exact hseq j hj1 (by omega)
        · rw [msvRow_seq, hxy.2.1]
        · rw [msvRow_seq, hxy.2.2])
      ((0 : Score),
        { st1 with
          mat := loopUp (fun m k => m.write_match 0 k (0 : Score)) st1.mat 0
            (gm1.model_length.toNat + 1) })
      ((0 : Score),
        { st2 with
          mat := loopUp (fun m k => m.write_match 0 k (0 : Score)) st2.mat 0
            (gm1.model_length.toNat + 1) })
      ⟨⟨le_rfl, ?_⟩, rfl, rfl⟩
    · exact hR.1.1
    · intro i2 c2
      show (loopUp (fun m k => m.write_match 0 k (0 : Score)) st1.mat 0
          (gm1.model_length.toNat + 1)).dp i2 c2
        ≤ (loopUp (fun m k => m.write_match 0 k (0 : Score)) st2.mat 0
          (gm1.model_length.toNat + 1)).dp i2 c2
      rw [initRow0_dp, initRow0_dp]
      by_cases hc : i2 = 0 ∧ c2 % 3 = 0 ∧ c2 / 3 < gm1.model_length.toNat + 1
      · rw [if_pos hc, if_pos hc]
      · rw [if_neg hc, if_neg hc]
        exact hdp i2 c2

/-- C5: increasing a single match-score table cell, all other inputs held
fixed, cannot decrease the score returned by compute_msv: for any cell
(k0, x0) and any new value at least the old one, the run on the updated
profile scores at least the run on the original. -/
theorem C5_single_cell_monotone (st : MSVState) (sl : ℤ) (gm : HMMProfile)
    (e : ℚ) (k0 x0 : ℕ) (v : Score) (hv : gm.match_score k0 x0 ≤ v) :
    (compute_msv st sl gm e).1 ≤
      (compute_msv st sl (gm.write_match_score k0 x0 v) e).1 := by
  refine compute_msv_mono st st sl gm (gm.write_match_score k0 x0 v) e e rfl
    (fun i _ _ => rfl) (fun i c => le_rfl) ?_
  intro k r hk1 hk2 hr
  show gm.match_score k r ≤
    (if r = x0 ∧ k * p7P_NR + p7P_MSC = k0 * p7P_NR + p7P_MSC then v
      else gm.rsc r (k * p7P_NR + p7P_MSC))
  by_cases hc : r = x0 ∧ k * p7P_NR + p7P_MSC = k0 * p7P_NR + p7P_MSC
  · rw [if_pos hc]
    have hk : k = k0 := by
      have := hc.2
      simp only [p7P_NR, p7P_MSC] at this
      omega
    rw [show gm.match_score k r = gm.match_score k0 x0 by rw [hc.1, hk]]
    exact hv
  · rw [if_neg hc]
    rfl

/-- C5 witness: raising the one cell (1, 0) of an all-ones M = 1 profile
from 1 to 2 does not decrease the returned score. -/
theorem C5_witness :
    (compute_msv ⟨fun _ => 0, DPMatrix.construct 1 1⟩ 1 (constProfile 1 1) 0).1 ≤
      (compute_msv ⟨fun _ => 0, DPMatrix.construct 1 1⟩ 1
        ((constProfile 1 1).write_match_score 1 0 ((2 : ℚ) : Score)) 0).1 :=
  C5_single_cell_monotone ⟨fun _ => 0, DPMatrix.construct 1 1⟩ 1
    (constProfile 1 1) 0 1 0 ((2 : ℚ) : Score)
    (show ((1 : ℚ) : Score) ≤ ((2 : ℚ) : Score) from
      WithBot.coe_le_coe.mpr (by norm_num))

/-- C10: the returned score depends only on the sequence length argument,
the profile's model length, the sequence entries at positions 1..L and the
match scores at model positions 1..M and residue values below the literal
20: two calls agreeing on those, with the same initial matrix, may differ
arbitrarily in transition scores, insert scores, special transitions,
metadata, the expected-hit-count argument and match scores at residues at
least 20, and still return equal scores. -/
theorem C10_score_dependencies (st1 st2 : MSVState) (sl : ℤ)
    (gm1 gm2 : HMMProfile) (e1 e2 : ℚ)
    (hml : gm1.model_length = gm2.model_length)
    (hseq : ∀ i, 1 ≤ i → i ≤ sl.toNat → st1.seq i = st2.seq i)
    (hmat : st1.mat = st2.mat)
    (hmu : ∀ k r, 1 ≤ k → k ≤ gm1.model_length.toNat → r < 20 →
      gm1.match_score k r = gm2.match_score k r) :
    (compute_msv st1 sl gm1 e1).1 = (compute_msv st2 sl gm2 e2).1 := by
  refine le_antisymm ?_ ?_
  · exact compute_msv_mono st1 st2 sl gm1 gm2 e1 e2 hml hseq
      (fun i c => by rw [hmat]) (fun k r h1 h2 h3 => le_of_eq (hmu k r h1 h2 h3))
  · refine compute_msv_mono st2 st1 sl gm2 gm1 e2 e1 hml.symm
      (fun i h1 h2 => (hseq i h1 h2).symm) (fun i c => by rw [hmat]) ?_
    intro k r h1 h2 h3
    exact le_of_eq (hmu k r h1 (by rw [← hml] at h2; exact h2) h3).symm

/-- C10 witness: two profiles differing only in transition scores, special
transitions, metadata, and in the expected-hit-count argument, applied to
the same sequence and a fresh matrix, return the same score. -/
theorem C10_witness :
    (compute_msv ⟨fun _ => 0, DPMatrix.construct 1 1⟩ 1 (constProfile 1 1) 0).1 =
      (compute_msv ⟨fun _ => 0, DPMatrix.construct 1 1⟩ 1
        { constProfile 1 1 with
          tsc := fun _ => (0 : Score)
          xsc := fun _ _ => ((7 : ℚ) : Score)
          mode := 3
          name := "other" } 7).1 :=
  C10_score_dependencies ⟨fun _ => 0, DPMatrix.construct 1 1⟩
    ⟨fun _ => 0, DPMatrix.construct 1 1⟩ 1 (constProfile 1 1)
    { constProfile 1 1 with
      tsc := fun _ => (0 : Score)
      xsc := fun _ _ => ((7 : ℚ) : Score)
      mode := 3
      name := "other" } 0 7 rfl (fun i _ _ => rfl) rfl
    (fun k r _ _ _ => rfl)

/- Closed form of one recurrence row under a constant non-negative match
score: processing row i on top of a previous row holding min(i-1, j) times
c writes min(i, k) times c into every cell of the row and raises the
running maximum to min(i, M) times c. -/

theorem msvRow_not_skip (gm : HMMProfile) (M : ℕ) (acc : Score × MSVState)
    (i : ℕ) (h : ¬ 20 ≤ acc.2.seq i) :
    msvRow gm M acc i = loopUp (msvColStep gm (acc.2.seq i) i) acc 1 M := by
  unfold msvRow
  rw [if_neg h]

theorem constRow_fill (gm : HMMProfile) (M : ℕ) (c : ℚ) (hc : 0 ≤ c)
    (hmu : ∀ k r, 1 ≤ k → k ≤ M → r < 20 → gm.match_score k r = (c : Score))
    (i : ℕ) (hi : 1 ≤ i) (r : ℕ) (hr : r < 20) (acc : Score × MSVState)
    (hprev0 : acc.2.mat.match_cell (i - 1) 0 = (0 : Score) ∨
      acc.2.mat.match_cell (i - 1) 0 = ⊥)
    (hprev : ∀ j, 1 ≤ j → j + 1 ≤ M →
      acc.2.mat.match_cell (i - 1) j =
        ((((min (i - 1) j : ℕ) : ℚ) * c : ℚ) : Score)) :
    (∀ i2 c2, i2 ≠ i →
      (loopUp (msvColStep gm r i) acc 1 M).2.mat.dp i2 c2 = acc.2.mat.dp i2 c2) ∧
    (∀ k, 1 ≤ k → k ≤ M →
      (loopUp (msvColStep gm r i) acc 1 M).2.mat.match_cell i k =
        ((((min i k : ℕ) : ℚ) * c : ℚ) : Score)) ∧
    ((loopUp (msvColStep gm r i) acc 1 M).1 =
      if M = 0 then acc.1
      else max acc.1 ((((min i M : ℕ) : ℚ) * c : ℚ) : Score)) ∧
    ((loopUp (msvColStep gm r i) acc 1 M).2.seq = acc.2.seq) := by
  have key := loopUp_ind
    (fun t a => t ≤ M →
      ((∀ i2 c2, i2 ≠ i → a.2.mat.dp i2 c2 = acc.2.mat.dp i2 c2) ∧
       (∀ k, 1 ≤ k → k ≤ t → a.2.mat.match_cell i k =
         ((((min i k : ℕ) : ℚ) * c : ℚ) : Score)) ∧
       (a.1 = if t = 0 then acc.1
         else max acc.1 ((((min i t : ℕ) : ℚ) * c : ℚ) : Score)) ∧
       (a.2.seq = acc.2.seq)))
    (msvColStep gm r i) 1 ?_ M acc ?_
  · exact key le_rfl
  · intro n a ha hle
    have hcomm : 1 + n = n + 1 := Nat.add_comm 1 n
    rw [hcomm]
    obtain ⟨hframe, hcells, hfst, hseqp⟩ := ha (by omega)
    have hms : gm.match_score (n + 1) r = (c : Score) :=
      hmu (n + 1) r (by omega) (by omega) hr
    have hprevcell : a.2.mat.match_cell (i - 1) ((n + 1) - 1) =
        acc.2.mat.match_cell (i - 1) n := by
      rw [show (n + 1) - 1 = n from by omega, match_cell_eq, match_cell_eq]
      exact hframe (i - 1) (n * 3) (by omega)
    have hvaleq : max (0 : Score) (max (gm.match_score (n + 1) r)
        (a.2.mat.match_cell (i - 1) ((n + 1) - 1) + gm.match_score (n + 1) r)) =
        ((((min i (n + 1) : ℕ) : ℚ) * c : ℚ) : Score) := by
      rw [hms, hprevcell]
      rcases Nat.eq_zero_or_pos n with hn0 | hn0
      · subst hn0
        have hmin : min i (0 + 1) = 1 := by omega
        rw [hmin]
        rcases hprev0 with hp | hp
        · rw [hp, score_zero_coe, score_add_coe, zero_add, max_self,
            score_max_coe, if_pos hc]
          norm_num
        · rw [hp, WithBot.bot_add, score_max_bot, score_zero_coe,
            score_max_coe, if_pos hc]
          norm_num
      · rw [hprev n hn0 (by omega), score_add_coe]
        have harith : ((min (i - 1) n : ℕ) : ℚ) * c + c =
            ((min i (n + 1) : ℕ) : ℚ) * c := by
          have hminq : ((min i (n + 1) : ℕ) : ℚ) = ((min (i - 1) n : ℕ) : ℚ) + 1 := by
            have : min i (n + 1) = min (i - 1) n + 1 := by omega
            rw [this]
            push_cast
            ring
          rw [hminq]
          ring
        rw [harith]
        have h1q : (1 : ℚ) ≤ ((min i (n + 1) : ℕ) : ℚ) := by
          exact_mod_cast (show 1 ≤ min i (n + 1) by omega)
        have hcle : c ≤ ((min i (n + 1) : ℕ) : ℚ) * c := by
          calc c = 1 * c := (one_mul c).symm
            _ ≤ ((min i (n + 1) : ℕ) : ℚ) * c :=
              mul_le_mul_of_nonneg_right h1q hc
        rw [score_max_coe, if_pos hcle, score_zero_coe, score_max_coe,
          if_pos (le_trans hc hcle)]
    refine ⟨?_, ?_, ?_, ?_⟩
    · intro i2 c2 hne
      rw [msvColStep_mat, write_match_dp]
      simp only []
      rw [if_neg (fun hcon => hne hcon.1)]
      exact hframe i2 c2 hne
    · intro k hk1 hk2
      rw [msvColStep_mat, write_match_match_cell]
      by_cases hkc : k = n + 1
      · rw [if_pos ⟨rfl, hkc⟩, hvaleq, hkc]
      · rw [if_neg (fun hcon => hkc hcon.2)]
        exact hcells k hk1 (by omega)
    · rw [msvColStep_fst, hfst, hvaleq]
      rcases Nat.eq_zero_or_pos n with hn0 | hn0
      · subst hn0
        rw [if_pos rfl, if_neg (by omega)]
      · rw [if_neg (by omega), if_neg (by omega), max_assoc]
        congr 1
        refine max_eq_right (WithBot.coe_le_coe.mpr ?_)
        refine mul_le_mul_of_nonneg_right ?_ hc
        exact_mod_cast (show min i n ≤ min i (n + 1) by omega)
    · rw [msvColStep_seq]
      exact hseqp
  · intro _
    exact ⟨fun _ _ _ => rfl, fun k hk1 hk2 => absurd hk1 (by omega),
      by rw [if_pos rfl], rfl⟩

/-- C1: for every model length M ≥ 0, sequence length L ≥ 0 and constant
c ≥ 0, if every match score at model positions 1..M and canonical residues
below 20 equals c, then on any digital sequence whose positions 1..L are
canonical and a freshly constructed matrix, compute_msv returns
min(M, L) * c. -/
theorem C1_constant_profile (st : MSVState) (sl : ℤ) (gm : HMMProfile) (e : ℚ)
    (M L : ℕ) (c : ℚ) (hM : gm.model_length = (M : ℤ)) (hL : sl = (L : ℤ))
    (hc : 0 ≤ c)
    (hmu : ∀ k r, 1 ≤ k → k ≤ M → r < 20 → gm.match_score k r = (c : Score))
    (hseq : ∀ i, 1 ≤ i → i ≤ L → st.seq i < 20)
    (hmat : st.mat = DPMatrix.construct gm.model_length sl) :
    (compute_msv st sl gm e).1 = ((((min M L : ℕ) : ℚ) * c : ℚ) : Score) := by
  unfold compute_msv
  by_cases h : sl ≤ 0 ∨ gm.model_length ≤ 0
  · rw [if_pos h]
    have hmin : min M L = 0 := by rcases h with h | h <;> omega
    rw [hmin]
    have : (((0 : ℕ) : ℚ) * c : ℚ) = 0 := by norm_num
    rw [this]
    rfl
  · rw [if_neg h]
    have hMpos : 1 ≤ M := by omega
    have hLpos : 1 ≤ L := by omega
    have hMt : gm.model_length.toNat = M := by omega
    have hLt : sl.toNat = L := by omega
    show (loopUp (msvRow gm gm.model_length.toNat)
      ((0 : Score),
        { st with
          mat := loopUp (fun m k => m.write_match 0 k (0 : Score)) st.mat 0
            (gm.model_length.toNat + 1) }) 1 sl.toNat).1
      = ((((min M L : ℕ) : ℚ) * c : ℚ) : Score)
    rw [hMt, hLt]
    have hrow0 : ∀ k, k ≤ M →
        (loopUp (fun m k => m.write_match 0 k (0 : Score)) st.mat 0
          (M + 1)).match_cell 0 k = (0 : Score) := by
      intro k hk
      rw [match_cell_eq, initRow0_dp, if_pos ⟨rfl, by omega, by omega⟩]
    have hbotelse : ∀ i2 c2, i2 ≠ 0 →
        (loopUp (fun m k => m.write_match 0 k (0 : Score)) st.mat 0
          (M + 1)).dp i2 c2 = ⊥ := by
      intro i2 c2 hne
      rw [initRow0_dp, if_neg (fun hcon => hne hcon.1), hmat]
      rfl
    have key := loopUp_ind
      (fun t s => t ≤ L →
        (s.2.seq = st.seq ∧
         (∀ k, k ≤ M → s.2.mat.match_cell 0 k = (0 : Score)) ∧
         (∀ j, 1 ≤ j → s.2.mat.match_cell j 0 = (⊥ : Score)) ∧
         (∀ j k, 1 ≤ j → j ≤ t → 1 ≤ k → k ≤ M →
           s.2.mat.match_cell j k = ((((min j k : ℕ) : ℚ) * c : ℚ) : Score)) ∧
         (s.1 = ((((min t M : ℕ) : ℚ) * c : ℚ) : Score))))
      (msvRow gm M) 1 ?_ L
      ((0 : Score),
        { st with
          mat := loopUp (fun m k => m.write_match 0 k (0 : Score)) st.mat 0
            (M + 1) }) ?_
    · obtain ⟨_, _, _, _, hfin⟩ := key le_rfl
      rw [hfin, Nat.min_comm]
    · intro n s hQ hle
      have hcomm : 1 + n = n + 1 := Nat.add_comm 1 n
      rw [hcomm]
      obtain ⟨hseqs, hrow0s, hcol0s, hcells, hfst⟩ := hQ (by omega)
      have hres : s.2.seq (n + 1) < 20 := by
        rw [hseqs]
        exact hseq (n + 1) (by omega) (by omega)
      have hnot : ¬ 20 ≤ s.2.seq (n + 1) := not_le.mpr hres
      have hrw : msvRow gm M s (n + 1) =
          loopUp (msvColStep gm (s.2.seq (n + 1)) (n + 1)) s 1 M :=
        msvRow_not_skip gm M s (n + 1) hnot
      have hprev0 : s.2.mat.match_cell ((n + 1) - 1) 0 = (0 : Score) ∨
          s.2.mat.match_cell ((n + 1) - 1) 0 = ⊥ := by
        rw [show (n + 1) - 1 = n from by omega]
        rcases Nat.eq_zero_or_pos n with hn0 | hn0
        · subst hn0
          exact Or.inl (hrow0s 0 (by omega))
        · exact Or.inr (hcol0s n hn0)
      have hprevrow : ∀ j, 1 ≤ j → j + 1 ≤ M →
          s.2.mat.match_cell ((n + 1) - 1) j =
            ((((min ((n + 1) - 1) j : ℕ) : ℚ) * c : ℚ) : Score) := by
        intro j hj1 hj2
        rw [show (n + 1) - 1 = n from by omega]
        rcases Nat.eq_zero_or_pos n with hn0 | hn0
        · subst hn0
          rw [hrow0s j (by omega)]
          have : (((min 0 j : ℕ) : ℚ) * c : ℚ) = 0 := by
            rw [Nat.zero_min]
            norm_num
          rw [this]
          rfl
        · exact hcells n j hn0 le_rfl hj1 (by omega)
      obtain ⟨Hframe, Hcells, Hfst, Hseq⟩ :=
        constRow_fill gm M c hc hmu (n + 1) (by omega) (s.2.seq (n + 1)) hres
          s hprev0 hprevrow
      refine ⟨?_, ?_, ?_, ?_, ?_⟩
      · rw [msvRow_seq]
        exact hseqs
      · intro k hk
        rw [match_cell_eq, msvRow_dp_written gm M s (n + 1) 0 (k * 3) (by omega),
          ← match_cell_eq]
        exact hrow0s k hk
      · intro j hj
        rw [match_cell_eq, msvRow_dp_written gm M s (n + 1) j 0 (by omega)]
        exact hcol0s j hj
      · intro j k hj1 hj2 hk1 hk2
        by_cases hjc : j = n + 1
        · subst hjc
          rw [hrw]
          exact Hcells k hk1 hk2
        · rw [match_cell_eq,
            msvRow_dp_written gm M s (n + 1) j (k * 3) (by omega),
            ← match_cell_eq]
          exact hcells j k hj1 (by omega) hk1 hk2
      · rw [hrw, Hfst, if_neg (by omega), hfst]
        refine max_eq_right (WithBot.coe_le_coe.mpr ?_)
        refine mul_le_mul_of_nonneg_right ?_ hc
        exact_mod_cast (show min n M ≤ min (n + 1) M by omega)
    · intro _
      refine ⟨rfl, hrow0, ?_, ?_, ?_⟩
      · intro j hj
        rw [match_cell_eq]
        exact hbotelse j 0 (by omega)
      · intro j k hj1 hj2 hk1 hk2
        exact absurd hj1 (by omega)
      · have : (((min 0 M : ℕ) : ℚ) * c : ℚ) = 0 := by
          rw [Nat.zero_min]
          norm_num
        rw [this]
        rfl

/-- C1 witness: the minimal constant case M = 1, L = 1, c = 1 on a fresh
matrix returns min(1, 1) * 1. -/
theorem C1_witness :
    (compute_msv ⟨fun _ => 0, DPMatrix.construct 1 1⟩ 1 (constProfile 1 1) 0).1
      = ((((min 1 1 : ℕ) : ℚ) * 1 : ℚ) : Score) :=
  C1_constant_profile ⟨fun _ => 0, DPMatrix.construct 1 1⟩ 1 (constProfile 1 1)
    0 1 1 1 (by norm_num [constProfile]) (by norm_num) (by norm_num)
    (fun k r _ _ _ => rfl) (fun i _ _ => by norm_num) rfl

end MSV
